import Mathlib

/-!
Verification of the socrates dialogue engine: a shallow embedding of the
graph model, builder, executor (src/engine/mod.rs), text parser
(src/parser/mod.rs) and text writer (src/writer/mod.rs), together with
theorems settling the specification claims.

Conventions of the embedding:
* Rust `String`/`&str` values become Lean `String`; the parser itself works
  on `List Char` (a Rust `&str` is a sequence of chars for `nom`).
* `HashMap<DialogNodeId, DialogNode>` becomes an association list
  `List (DialogNodeId × DialogNode)`; its incidental order models the
  map's unspecified iteration order, and `insertAL`/`lookupAL` model
  `HashMap::insert` (replace on equal key) and `HashMap::get`.
* A Rust panic (`unwrap` on `None`) is modelled by returning `none` from an
  `Option`-valued function; `Result<T, E>` becomes `Except E T`.
-/

namespace Socrates

/-- `DialogNodeId`: newtype around a string id (engine/mod.rs). -/
structure DialogNodeId where
  id : String
deriving DecidableEq, Repr

/-- `DialogText`: tagged text, single `PlainText` variant (engine/mod.rs). -/
inductive DialogText where
  | PlainText : String → DialogText
deriving DecidableEq, Repr

def DialogText.as_plain_str : DialogText → String
  | .PlainText s => s

/-- `DialogLinkCondition`: `None` or `OnlyIfNotYetChosen` (engine/mod.rs). -/
inductive DialogLinkCondition where
  | None
  | OnlyIfNotYetChosen
deriving DecidableEq, Repr

/-- `DialogLink { from, to, text, condition }` (engine/mod.rs). The Rust
fields `from` and `to` are Lean keywords and are rendered `fromId`/`toId`. -/
structure DialogLink where
  fromId : DialogNodeId
  toId : DialogNodeId
  text : DialogText
  condition : DialogLinkCondition
deriving DecidableEq, Repr

/-- `DialogNode { id, text, links }` (engine/mod.rs). -/
structure DialogNode where
  id : DialogNodeId
  text : DialogText
  links : List DialogLink
deriving DecidableEq, Repr

/-- `DialogNode::new`: node with empty link list. -/
def DialogNode.new (id : String) (text : String) : DialogNode :=
  ⟨⟨id⟩, .PlainText text, []⟩

/-- `DialogNode::add_link`: push a link onto the node's link vector. -/
def DialogNode.add_link (n : DialogNode) (l : DialogLink) : DialogNode :=
  { n with links := n.links ++ [l] }

/-- `DialogError`: the error enum of engine/mod.rs. In the source under
verification it has **no variants at all**, so `build` can never fail. -/
inductive DialogError
deriving DecidableEq

/-- `HashMap::insert` on the association-list model: replace the entry with
an equal key, or append a fresh entry. -/
def insertAL (m : List (DialogNodeId × DialogNode)) (k : DialogNodeId)
    (v : DialogNode) : List (DialogNodeId × DialogNode) :=
  match m with
  | [] => [(k, v)]
  | (k', v') :: rest =>
    if k' = k then (k, v) :: rest else (k', v') :: insertAL rest k v

/-- `HashMap::get` on the association-list model. -/
def lookupAL (m : List (DialogNodeId × DialogNode)) (k : DialogNodeId) :
    Option DialogNode :=
  match m with
  | [] => none
  | (k', v) :: rest => if k' = k then some v else lookupAL rest k

/-- `Dialog { start_node, nodes }` (engine/mod.rs). -/
structure Dialog where
  start_node : DialogNodeId
  nodes : List (DialogNodeId × DialogNode)
deriving DecidableEq, Repr

/-- `Dialog::get_node` (an `unwrap` in the source: `none` models the panic). -/
def Dialog.get_node (d : Dialog) (id : DialogNodeId) : Option DialogNode :=
  lookupAL d.nodes id

/-- `Dialog::start_node` accessor (an `unwrap` in the source). -/
def Dialog.start_nodeVal (d : Dialog) : Option DialogNode :=
  lookupAL d.nodes d.start_node

/-- `DialogBuilder { start_node, nodes }` (engine/mod.rs). -/
structure DialogBuilder where
  start_node : DialogNodeId
  nodes : List (DialogNodeId × DialogNode)
deriving DecidableEq, Repr

/-- `DialogBuilder::new`: seed the builder with the start node. -/
def DialogBuilder.new (start : DialogNode) : DialogBuilder :=
  ⟨start.id, [(start.id, start)]⟩

/-- `DialogBuilder::build` exactly as in src/engine/mod.rs lines 19–24: it
performs **no validation** and unconditionally returns `Ok`. -/
def DialogBuilder.build (b : DialogBuilder) : Except DialogError Dialog :=
  .ok ⟨b.start_node, b.nodes⟩

/-- `DialogBuilder::add_node`: insert-or-replace by the node's own id. -/
def DialogBuilder.add_node (b : DialogBuilder) (n : DialogNode) : DialogBuilder :=
  ⟨b.start_node, insertAL b.nodes n.id n⟩

/-- `DialogBuilder::add_link` (engine/mod.rs lines 31–34):
`self.nodes.get_mut(link.from()).unwrap().add_link(link)`. The Rust
signature returns `Self` with no error channel; when the `from` node is
absent the `unwrap` panics, modelled here by `none`. -/
def DialogBuilder.add_link (b : DialogBuilder) (l : DialogLink) :
    Option DialogBuilder :=
  match lookupAL b.nodes l.fromId with
  | some n => some ⟨b.start_node, insertAL b.nodes l.fromId (n.add_link l)⟩
  | none => none

/-- `DialogExecutor { dialog, current, path }` (engine/mod.rs). The borrowed
dialog becomes a plain field. -/
structure DialogExecutor where
  dialog : Dialog
  current : DialogNodeId
  path : List (DialogNodeId × Nat)
deriving DecidableEq, Repr

/-- `Dialog::start` / `DialogExecutor::new` (the `start_node()` accessor
unwraps, hence the `Option`). -/
def Dialog.start (d : Dialog) : Option DialogExecutor :=
  (d.start_nodeVal).map fun n => ⟨d, n.id, []⟩

/-- `DialogExecutor::current_node` (an `unwrap` in the source). -/
def DialogExecutor.current_node (e : DialogExecutor) : Option DialogNode :=
  e.dialog.get_node e.current

/-- The history vector computed by `DialogExecutor::choices` (engine/mod.rs
lines 75–85): the indices of all path entries whose node id equals the
current node's id. -/
def DialogExecutor.choicesHistory (e : DialogExecutor) : Option (List Nat) :=
  (e.current_node).map fun n =>
    (e.path.filter fun p => p.1 = n.id).map Prod.snd

/-- The availability filter of `DialogExecChoices::all` (engine/mod.rs lines
110–114). -/
def linkAvailable (hist : List Nat) (index : Nat) (link : DialogLink) : Bool :=
  decide (link.condition = DialogLinkCondition.None) ||
    (decide (link.condition = DialogLinkCondition.OnlyIfNotYetChosen) &&
      !(hist.contains index))

/-- `executor.choices().all()` (engine/mod.rs lines 104–116): enumerate the
current node's links, keep the available ones, yield (original index, text). -/
def DialogExecutor.choicesAll (e : DialogExecutor) :
    Option (List (Nat × DialogText)) :=
  (e.current_node).bind fun n =>
  (e.choicesHistory).map fun hist =>
    ((n.links.enum.filter fun p => linkAvailable hist p.1 p.2).map
      fun p => (p.1, p.2.text))

/-- `executor.choices().get(index)` (engine/mod.rs lines 118–123): a bounds
check on the full link vector; `none` is the "no such choice" result
(`Option::None` in the source, not a panic). -/
def DialogExecutor.choicesGet (e : DialogExecutor) (index : Nat) :
    Option (DialogLink × Nat) :=
  (e.current_node).bind fun n =>
    (n.links[index]?).map fun l => (l, index)

/-- `DialogExecutor::choose` (engine/mod.rs lines 87–91): push
`(current node id, index)` onto the path and move to the link's target.
The source `unwrap`s the link lookup; `none` models that panic. -/
def DialogExecutor.choose (e : DialogExecutor) (index : Nat) :
    Option DialogExecutor :=
  (e.current_node).bind fun n =>
  (n.links[index]?).map fun l =>
    { e with current := l.toId, path := e.path ++ [(n.id, index)] }

/-- The public selection path `executor.choices().get(index)?.choose()`
(`DialogExecChoice::choose`, engine/mod.rs lines 145–147, which forwards the
index stored by `get` to `DialogExecutor::choose`). -/
def DialogExecutor.chooseAt (e : DialogExecutor) (index : Nat) :
    Option DialogExecutor :=
  (e.choicesGet index).bind fun _ => e.choose index

/-- One public transition of a session: some in-range index was selected via
`choices().get(i)` and chosen. -/
def ExecStep (a b : DialogExecutor) : Prop :=
  ∃ i, a.chooseAt i = some b

/-- `b` is a later state of the same session as `a`: reachable by zero or
more public transitions. -/
def Reaches (a b : DialogExecutor) : Prop :=
  Relation.ReflTransGen ExecStep a b

/-! ### Text parser (src/parser/mod.rs), embedded over `List Char`.
`nom` combinators become functions returning `Option`; `none` is a `nom`
error (no claim inspects the error payload). `take_while` is the maximal
prefix, i.e. `List.takeWhile`/`List.dropWhile`. -/

/-- `Separator` (parser/mod.rs). -/
inductive Separator where
  | Link
  | Node
deriving DecidableEq, Repr

/-- `is_alphanumeric` (parser/mod.rs): the ranges A–Z, a–z, 0–9. -/
def is_alphanumeric (ch : Char) : Bool :=
  ('A' ≤ ch && ch ≤ 'Z') || ('a' ≤ ch && ch ≤ 'z') || ('0' ≤ ch && ch ≤ '9')

/-- `is_whitespace` (parser/mod.rs): space, tab, LF, CR. -/
def is_whitespace (ch : Char) : Bool :=
  ch == ' ' || ch == '\t' || ch == '\n' || ch == '\r'

/-- `nom::bytes::complete::tag`: match an exact literal, return the rest. -/
def tagP : List Char → List Char → Option (List Char)
  | [], input => some input
  | _ :: _, [] => none
  | t :: ts, c :: cs => if c = t then tagP ts cs else none

/-- `link_separator` (parser/mod.rs): `alt(("\r\n---\r\n", "\n---\n"))`. -/
def link_separator (input : List Char) : Option (List Char) :=
  match tagP "\r\n---\r\n".data input with
  | some rest => some rest
  | none => tagP "\n---\n".data input

/-- `node_separator` (parser/mod.rs): `alt(("===\r\n", "===\n"))`. -/
def node_separator (input : List Char) : Option (List Char) :=
  match tagP "===\r\n".data input with
  | some rest => some rest
  | none => tagP "===\n".data input

/-- `many_till(anychar, alt((link_separator, node_separator)))`: collect
characters one at a time until a separator matches; fail at end of input. -/
def manyTillSep (input : List Char) : Option (List Char × (List Char × Separator)) :=
  match link_separator input with
  | some rest => some (rest, ([], Separator.Link))
  | none =>
    match node_separator input with
    | some rest => some (rest, ([], Separator.Node))
    | none =>
      match input with
      | [] => none
      | c :: cs =>
        (manyTillSep cs).map fun r => (r.1, (c :: r.2.1, r.2.2))

/-- The element predicate of the choice list:
`take_while(|ch| ch != '|' && ch != '=')` (parser/mod.rs line 56). -/
def choice_char (ch : Char) : Bool :=
  ch != '|' && ch != '='

/-- `separated_list0(tag("|"), take_while(choice_char))`: split the input
into pipe-separated chunks of `choice_char` characters; parsing of the list
stops at the first character that is neither consumed by an element nor a
`"|"` separator (in particular at any `=`). Returns (rest, chunks); the
chunk list is never empty because the element parser always succeeds. -/
def splitChoices : List Char → List Char × List (List Char)
  | [] => ([], [[]])
  | c :: cs =>
    if c = '|' then
      let r := splitChoices cs
      (r.1, [] :: r.2)
    else if c = '=' then
      (c :: cs, [[]])
    else
      let r := splitChoices cs
      (r.1, match r.2 with
        | e :: es => (c :: e) :: es
        | [] => [[c]])

/-- `char::is_whitespace` of the Rust standard library (the Unicode
White_Space property), used by `str::trim` in `parse_link`. -/
def rust_is_whitespace (c : Char) : Bool :=
  ('\t' ≤ c && c ≤ '\r') || c == ' ' || c == '\u0085' || c == '\u00A0' ||
    c == '\u1680' || ('\u2000' ≤ c && c ≤ '\u200A') || c == '\u2028' ||
    c == '\u2029' || c == '\u202F' || c == '\u205F' || c == '\u3000'

/-- Rust `str::trim`: drop Unicode whitespace from both ends. -/
def rustTrim (l : List Char) : List Char :=
  ((l.dropWhile rust_is_whitespace).reverse.dropWhile rust_is_whitespace).reverse

/-- `parse_link` (parser/mod.rs lines 71–79): skip leading parser
whitespace, read `{identifier}`, and take the (str::trim-med) remainder as
the choice text; the condition is always `None`. -/
def parse_link (parent : List Char) (input : List Char) : Option DialogLink :=
  match input.dropWhile is_whitespace with
  | '{' :: r1 =>
    let target := r1.takeWhile is_alphanumeric
    match r1.dropWhile is_alphanumeric with
    | '}' :: r3 =>
      some ⟨⟨String.mk parent⟩, ⟨String.mk target⟩,
        .PlainText (String.mk (rustTrim r3)), .None⟩
    | _ => none
  | _ => none

/-- `parse_node` (parser/mod.rs lines 45–69). The node construction in the
`Link` branch is the repository's `DialogNode::new_with_links` (a plain
record constructor), inlined. -/
def parse_node (input : List Char) : Option (List Char × DialogNode) :=
  match tagP "Name:".data (input.dropWhile is_whitespace) with
  | none => none
  | some i2 =>
    let i3 := i2.dropWhile is_whitespace
    let node_name := i3.takeWhile is_alphanumeric
    let i5 := (i3.dropWhile is_alphanumeric).dropWhile is_whitespace
    match manyTillSep i5 with
    | none => none
    | some (i6, (text, sep)) =>
      if sep = Separator.Link then
        let r := splitChoices i6
        match r.2.mapM (parse_link node_name) with
        | none => none
        | some links =>
          match node_separator r.1 with
          | none => none
          | some i8 =>
            some (i8, ⟨⟨String.mk node_name⟩, .PlainText (String.mk text), links⟩)
      else
        some (i6, ⟨⟨String.mk node_name⟩, .PlainText (String.mk text), []⟩)

/-- `many0(parse_node)`: zero or more further node blocks. `nom`'s `many0`
rejects an inner parse that consumes nothing; `parse_node` always consumes
(it must match `"Name:"`), so with fuel `input.length + 1` neither the
length guard nor the fuel bound is ever reached. -/
def many0_nodes : Nat → List Char → Option (List Char × List DialogNode)
  | 0, _ => none
  | fuel + 1, input =>
    match parse_node input with
    | none => some (input, [])
    | some (rest, node) =>
      if rest.length < input.length then
        (many0_nodes fuel rest).map fun r => (r.1, node :: r.2)
      else none

/-- `parse` (parser/mod.rs lines 34–43): one node, then `many0` more, feed
them through the builder and `build()` (whose error, were there one, would
surface unchanged — `Ok(builder.build()?)`). -/
def parse (s : String) : Option Dialog :=
  match parse_node s.data with
  | none => none
  | some (i1, node) =>
    match many0_nodes (i1.length + 1) i1 with
    | none => none
    | some (_remainder, nodes) =>
      let builder := nodes.foldl (fun b n => b.add_node n) (DialogBuilder.new node)
      match builder.build with
      | .ok d => some d
      | .error e => nomatch e

/-! ### Text writer (src/writer/mod.rs) -/

/-- Modelled from the spec: the `Display`/`to_string` implementation of
`DialogNodeId` used by the writer is not in the engine source under
verification; §3 defines a NodeId as an opaque string identifier, so it
renders as the underlying string. -/
def DialogNodeId.to_string (n : DialogNodeId) : String := n.id

/-- A computable lexicographic order on char lists (used to realise the
spec's "ascending by id" example order). -/
def strLeB : List Char → List Char → Bool
  | [], _ => true
  | _ :: _, [] => false
  | a :: as, b :: bs => if a < b then true else if b < a then false else strLeB as bs

/-- "Ascending by id" as a relation on node ids. -/
def idLe (a b : DialogNodeId) : Prop := strLeB a.id.data b.id.data = true

instance : DecidableRel idLe := fun a b =>
  inferInstanceAs (Decidable (strLeB a.id.data b.id.data = true))

/-- Modelled from the spec: `Dialog::all_nodes` is called by
`serialize_dialog` but is not in the engine source under verification.
Spec §4.4/§9 requires the writer to visit the nodes in a fixed,
deterministic order independent of the node mapping's incidental iteration
order — "e.g. ascending by id" — so iteration is modelled as the nodes
looked up under the map's keys sorted ascending by id. -/
def Dialog.all_nodes (d : Dialog) : List DialogNode :=
  (((d.nodes.map Prod.fst).insertionSort idLe).filterMap fun k =>
    lookupAL d.nodes k)

/-- `serialize_node` (writer/mod.rs lines 15–43): header, body text, then —
only when links exist — `"\n---\n"` and the links joined with `" | "`, each
rendered `{target} text`, then the `"\n===\n\n"` terminator block of the
format string. -/
def serialize_node (node : DialogNode) : String :=
  let link_text :=
    match node.links with
    | [] => ""
    | ls => "\n---\n" ++ String.intercalate " | "
        (ls.map fun l => "\x7b" ++ l.toId.to_string ++ "\x7d " ++ l.text.as_plain_str)
  "Name: " ++ node.id.to_string ++ "\n" ++ node.text.as_plain_str ++
    link_text ++ "\n===\n\n"

/-- `serialize_dialog` (writer/mod.rs lines 3–13): the start node's block
first (via the unwrapping `start_node()` accessor, hence the `Option`),
then every other node's block in `all_nodes` order. -/
def serialize_dialog (d : Dialog) : Option String :=
  (lookupAL d.nodes d.start_node).map fun start =>
    serialize_node start ++
      String.join ((d.all_nodes).filterMap fun node =>
        if node.id = start.id then none else some (serialize_node node))

/-! ### Concrete inputs for the parser/writer claims -/

/-- The input of the parser test `error_in_links`: the link target "En" is
never defined as a node. -/
def c1_input : String :=
  "Name: Start\nHello, World!\n---\n{En} Hi!\n===\n\nName: End\nBye!\n===\n"

/-- A choice text containing a `=` that is not part of a node terminator. -/
def c9_input : String :=
  "Name: Start\nHello, World!\n---\n{End} a=b\n===\n\nName: End\nBye!\n===\n"

/-- Start node of the round-trip example: one gated link. -/
def c2_startNode : DialogNode :=
  ⟨⟨"Start"⟩, .PlainText "Hello",
    [⟨⟨"Start"⟩, ⟨"End"⟩, .PlainText "Hi", .OnlyIfNotYetChosen⟩]⟩

/-- End node of the round-trip example. -/
def c2_endNode : DialogNode := ⟨⟨"End"⟩, .PlainText "Bye", []⟩

/-- A two-node dialogue whose single link is gated by `OnlyIfNotYetChosen`,
for the round-trip fidelity-gap claim. -/
def c2_dialog : Dialog :=
  ⟨⟨"Start"⟩, [(⟨"Start"⟩, c2_startNode), (⟨"End"⟩, c2_endNode)]⟩

/-- The serialization of `c2_dialog`. -/
def c2_serialized : String :=
  "Name: Start\nHello\n---\n{End} Hi\n===\n\nName: End\nBye\n===\n\n"

/-- The dialogue obtained by re-parsing `c2_serialized`: the link condition
has collapsed to `None` (and the linkless node's body keeps its newline). -/
def c2_reparsed : Dialog :=
  ⟨⟨"Start"⟩,
    [(⟨"Start"⟩, ⟨⟨"Start"⟩, .PlainText "Hello",
        [⟨⟨"Start"⟩, ⟨"End"⟩, .PlainText "Hi", .None⟩]⟩),
     (⟨"End"⟩, ⟨⟨"End"⟩, .PlainText "Bye\n", []⟩)]⟩

/-- The same map content as `c2_dialog` stored in the opposite list order
(a different incidental iteration order of the node mapping). -/
def c7_d2 : Dialog :=
  ⟨⟨"Start"⟩, [(⟨"End"⟩, c2_endNode), (⟨"Start"⟩, c2_startNode)]⟩

/-- The builder of claim C8: only the node "Start" exists. -/
def c8_builder : DialogBuilder :=
  DialogBuilder.new (DialogNode.new "Start" "Hello, World!")

/-- A link whose `from` node "Other" was never added. -/
def c8_link : DialogLink := ⟨⟨"Other"⟩, ⟨"Start"⟩, .PlainText "x", .None⟩

/-- A link whose `from` node "Start" exists in `c8_builder`. -/
def c8_link2 : DialogLink := ⟨⟨"Start"⟩, ⟨"End"⟩, .PlainText "y", .None⟩

/-! ### Concrete dialog of the engine's `cyclic_dialog` test, used as witness
data: Start –(None)→ End, Start –(OnlyIfNotYetChosen)→ Branch,
Branch –(None)→ End, Branch –(None)→ Start. -/

def startLink0 : DialogLink :=
  ⟨⟨"Start"⟩, ⟨"End"⟩, .PlainText "Hi and bye!", .None⟩

def startLink1 : DialogLink :=
  ⟨⟨"Start"⟩, ⟨"Branch"⟩, .PlainText "Hi!", .OnlyIfNotYetChosen⟩

def branchLink0 : DialogLink :=
  ⟨⟨"Branch"⟩, ⟨"End"⟩, .PlainText "Goodbye", .None⟩

def branchLink1 : DialogLink :=
  ⟨⟨"Branch"⟩, ⟨"Start"⟩, .PlainText "Go Back", .None⟩

def startN : DialogNode :=
  ⟨⟨"Start"⟩, .PlainText "Hello, World!", [startLink0, startLink1]⟩

def endN : DialogNode := ⟨⟨"End"⟩, .PlainText "Goodbye, World!", []⟩

def branchN : DialogNode :=
  ⟨⟨"Branch"⟩, .PlainText "Nice to meet you!", [branchLink0, branchLink1]⟩

def cycDialog : Dialog :=
  ⟨⟨"Start"⟩, [(⟨"Start"⟩, startN), (⟨"End"⟩, endN), (⟨"Branch"⟩, branchN)]⟩

/-- The builder chain of the `cyclic_dialog` test. -/
def cycBuilt : Option Dialog :=
  ((((DialogBuilder.new (DialogNode.new "Start" "Hello, World!")).add_node
      (DialogNode.new "End" "Goodbye, World!")).add_node
      (DialogNode.new "Branch" "Nice to meet you!")).add_link startLink0).bind
    fun b => (b.add_link startLink1).bind
    fun b => (b.add_link branchLink0).bind
    fun b => (b.add_link branchLink1).map
    fun b => match b.build with
      | .ok d => d
      | .error e => nomatch e

/-- A fresh session at the start node of `cycDialog`. -/
def execStart : DialogExecutor := ⟨cycDialog, ⟨"Start"⟩, []⟩

/-- A session positioned at Branch after choosing Start→Branch. -/
def execBranch : DialogExecutor := ⟨cycDialog, ⟨"Branch"⟩, [(⟨"Start"⟩, 1)]⟩

/-- The `cyclic_dialog` test state: back at Start after Start→Branch (index 1)
then Branch→Start (index 1). -/
def execLoop : DialogExecutor :=
  ⟨cycDialog, ⟨"Start"⟩, [(⟨"Start"⟩, 1), (⟨"Branch"⟩, 1)]⟩

/-! ### Helper lemmas about the executor -/

/-- Fidelity anchor: the builder chain of the `cyclic_dialog` test produces
exactly `cycDialog`, and walking Start→Branch→Start through the public
selection path reproduces the test's states and its single remaining choice. -/
theorem cyclic_test_anchor :
    cycBuilt = some cycDialog ∧
    execStart.chooseAt 1 = some execBranch ∧
    execBranch.chooseAt 1 = some execLoop ∧
    execLoop.choicesAll = some [(0, DialogText.PlainText "Hi and bye!")] := by
  decide

theorem mem_histAt {path : List (DialogNodeId × Nat)} {nid : DialogNodeId}
    {i : Nat} :
    i ∈ (path.filter fun p => p.1 = nid).map Prod.snd ↔ (nid, i) ∈ path := by
  constructor
  · intro h
    rcases List.mem_map.mp h with ⟨⟨a, b⟩, hab, hb⟩
    rcases List.mem_filter.mp hab with ⟨hmem, hdec⟩
    have ha : a = nid := of_decide_eq_true hdec
    have hb' : b = i := hb
    rw [ha, hb'] at hmem
    exact hmem
  · intro h
    exact List.mem_map.mpr ⟨(nid, i), List.mem_filter.mpr ⟨h, by simp⟩, rfl⟩

theorem choicesAll_eq_of_current {e : DialogExecutor} {n : DialogNode}
    (h : e.current_node = some n) :
    e.choicesAll = some ((n.links.enum.filter fun p =>
      linkAvailable ((e.path.filter fun q => q.1 = n.id).map Prod.snd) p.1 p.2).map
      fun p => (p.1, p.2.text)) := by
  simp [DialogExecutor.choicesAll, DialogExecutor.choicesHistory, h]

theorem mem_choicesAll_iff {e : DialogExecutor} {n : DialogNode}
    (h : e.current_node = some n) {L : List (Nat × DialogText)}
    (hL : e.choicesAll = some L) {i : Nat} {t : DialogText} :
    (i, t) ∈ L ↔ ∃ l, n.links[i]? = some l ∧ t = l.text ∧
      linkAvailable ((e.path.filter fun q => q.1 = n.id).map Prod.snd) i l = true := by
  rw [choicesAll_eq_of_current h, Option.some.injEq] at hL
  subst hL
  constructor
  · intro hm
    rcases List.mem_map.mp hm with ⟨⟨j, l⟩, hjl, heq⟩
    rcases List.mem_filter.mp hjl with ⟨henum, hav⟩
    rcases Prod.mk.injEq .. ▸ heq with ⟨hj, ht⟩
    have hget : n.links[j]? = some l := List.mk_mem_enum_iff_getElem?.mp henum
    exact ⟨l, hj ▸ hget, ht.symm, hj ▸ hav⟩
  · rintro ⟨l, hget, rfl, hav⟩
    refine List.mem_map.mpr ⟨(i, l), List.mem_filter.mpr ⟨?_, hav⟩, rfl⟩
    exact List.mk_mem_enum_iff_getElem?.mpr hget

theorem gated_mem_iff {e : DialogExecutor} {n : DialogNode} {l : DialogLink}
    {i : Nat} (h : e.current_node = some n) (hl : n.links[i]? = some l)
    (hc : l.condition = DialogLinkCondition.OnlyIfNotYetChosen)
    {L : List (Nat × DialogText)} (hL : e.choicesAll = some L) :
    (∃ t, (i, t) ∈ L) ↔ (n.id, i) ∉ e.path := by
  constructor
  · rintro ⟨t, ht⟩
    rcases (mem_choicesAll_iff h hL).mp ht with ⟨l', hl', _, hav⟩
    rw [hl, Option.some.injEq] at hl'
    subst hl'
    unfold linkAvailable at hav
    rw [hc] at hav
    simp at hav
    exact hav
  · intro hnp
    refine ⟨l.text, (mem_choicesAll_iff h hL).mpr ⟨l, hl, rfl, ?_⟩⟩
    unfold linkAvailable
    rw [hc]
    simp
    exact hnp

theorem chooseAt_some_iff {e : DialogExecutor} {i : Nat} {b : DialogExecutor} :
    e.chooseAt i = some b ↔ ∃ n l, e.current_node = some n ∧
      n.links[i]? = some l ∧
      b = ⟨e.dialog, l.toId, e.path ++ [(n.id, i)]⟩ := by
  constructor
  · intro hb
    unfold DialogExecutor.chooseAt DialogExecutor.choicesGet
      DialogExecutor.choose at hb
    rcases Option.bind_eq_some.mp hb with ⟨c, _, hb2⟩
    rcases Option.bind_eq_some.mp hb2 with ⟨n, hn, hmap⟩
    rcases Option.map_eq_some'.mp hmap with ⟨l, hl, hb3⟩
    exact ⟨n, l, hn, hl, hb3.symm⟩
  · rintro ⟨n, l, hn, hl, rfl⟩
    simp [DialogExecutor.chooseAt, DialogExecutor.choicesGet,
      DialogExecutor.choose, hn, hl]

theorem Reaches.mem_path {a b : DialogExecutor} (h : Reaches a b)
    {x : DialogNodeId × Nat} (hx : x ∈ a.path) : x ∈ b.path := by
  induction h with
  | refl => exact hx
  | tail _ hstep ih =>
    rcases hstep with ⟨i, hi⟩
    rcases chooseAt_some_iff.mp hi with ⟨n, l, _, _, rfl⟩
    exact List.mem_append_left _ ih

/-! ### Helper lemmas about the parser -/

theorem parse_link_condition {parent c : List Char} {l : DialogLink}
    (h : parse_link parent c = some l) :
    l.condition = DialogLinkCondition.None := by
  unfold parse_link at h
  split at h
  · split at h
    · injection h with h2
      rw [← h2]
    · exact Option.noConfusion h
  · exact Option.noConfusion h

theorem mapM_parse_link_conditions {name : List Char} {cs : List (List Char)}
    {links : List DialogLink} (h : cs.mapM (parse_link name) = some links) :
    ∀ l ∈ links, l.condition = DialogLinkCondition.None := by
  induction cs generalizing links with
  | nil =>
    rw [List.mapM_nil] at h
    injection h with h2
    rw [← h2]
    intro l hl
    exact absurd hl (List.not_mem_nil l)
  | cons c cs ih =>
    rw [List.mapM_cons] at h
    rcases Option.bind_eq_some.mp h with ⟨b, hb, h2⟩
    rcases Option.bind_eq_some.mp h2 with ⟨bs, hbs, h3⟩
    injection h3 with h4
    intro l hl
    rw [← h4] at hl
    rcases List.mem_cons.mp hl with rfl | hmem
    · exact parse_link_condition hb
    · exact ih hbs l hmem

theorem parse_node_conditions {input rest : List Char} {n : DialogNode}
    (h : parse_node input = some (rest, n)) :
    ∀ l ∈ n.links, l.condition = DialogLinkCondition.None := by
  unfold parse_node at h
  split at h
  · exact Option.noConfusion h
  · simp only [] at h
    split at h
    · exact Option.noConfusion h
    · split at h
      · split at h
        · exact Option.noConfusion h
        · rename_i links hmapM
          split at h
          · exact Option.noConfusion h
          · injection h with h2
            have hn : n = ⟨_, _, links⟩ := (Prod.mk.injEq .. ▸ h2).2.symm
            rw [hn]
            exact mapM_parse_link_conditions hmapM
      · injection h with h2
        have hn : n = ⟨_, _, []⟩ := (Prod.mk.injEq .. ▸ h2).2.symm
        rw [hn]
        intro l hl
        exact absurd hl (List.not_mem_nil l)

theorem many0_nodes_conditions :
    ∀ (fuel : Nat) (input rest : List Char) (nodes : List DialogNode),
      many0_nodes fuel input = some (rest, nodes) →
      ∀ n ∈ nodes, ∀ l ∈ n.links, l.condition = DialogLinkCondition.None := by
  intro fuel
  induction fuel with
  | zero =>
    intro input rest nodes h
    exact Option.noConfusion h
  | succ fuel ih =>
    intro input rest nodes h
    unfold many0_nodes at h
    split at h
    · injection h with h2
      have : nodes = [] := ((Prod.mk.injEq .. ▸ h2).2).symm
      rw [this]
      intro n hn
      exact absurd hn (List.not_mem_nil n)
    · rename_i rest0 node0 hpn
      split at h
      · rcases Option.map_eq_some'.mp h with ⟨⟨r2, ns⟩, hm, heq⟩
        have hnodes : nodes = node0 :: ns := ((Prod.mk.injEq .. ▸ heq).2).symm
        rw [hnodes]
        intro n hn
        rcases List.mem_cons.mp hn with rfl | hmem
        · exact parse_node_conditions hpn
        · exact ih _ _ _ hm n hmem
      · exact Option.noConfusion h

theorem splitChoices_head (cs : List Char) :
    (splitChoices cs).2.head? = some (cs.takeWhile choice_char) := by
  induction cs with
  | nil => rfl
  | cons c cs ih =>
    by_cases h1 : c = '|'
    · subst h1
      simp [splitChoices, List.takeWhile_cons, choice_char]
    · by_cases h2 : c = '='
      · subst h2
        simp [splitChoices, List.takeWhile_cons, choice_char]
      · have hcc : choice_char c = true := by simp [choice_char, h1, h2]
        rw [List.takeWhile_cons, if_pos hcc]
        unfold splitChoices
        rw [if_neg h1, if_neg h2]
        simp only []
        cases hr : (splitChoices cs).2 with
        | nil => rw [hr] at ih; exact Option.noConfusion ih
        | cons e es =>
          rw [hr] at ih
          injection ih with ih2
          simp [ih2]

theorem splitChoices_all_chunks (cs : List Char) :
    ∀ chunk ∈ (splitChoices cs).2, ∀ c ∈ chunk, choice_char c = true := by
  induction cs with
  | nil =>
    intro chunk hc
    rcases List.mem_singleton.mp hc with rfl
    intro c hc2
    exact absurd hc2 (List.not_mem_nil c)
  | cons c cs ih =>
    by_cases h1 : c = '|'
    · subst h1
      intro chunk hc
      unfold splitChoices at hc
      rw [if_pos rfl] at hc
      simp only [] at hc
      rcases List.mem_cons.mp hc with rfl | hmem
      · intro x hx; exact absurd hx (List.not_mem_nil x)
      · exact ih chunk hmem
    · by_cases h2 : c = '='
      · subst h2
        intro chunk hc
        unfold splitChoices at hc
        rw [if_neg h1, if_pos rfl] at hc
        rcases List.mem_singleton.mp hc with rfl
        intro x hx; exact absurd hx (List.not_mem_nil x)
      · have hcc : choice_char c = true := by simp [choice_char, h1, h2]
        intro chunk hc
        unfold splitChoices at hc
        rw [if_neg h1, if_neg h2] at hc
        simp only [] at hc
        cases hr : (splitChoices cs).2 with
        | nil =>
          rw [hr] at hc
          rcases List.mem_singleton.mp hc with rfl
          intro x hx
          rcases List.mem_singleton.mp hx with rfl
          exact hcc
        | cons e es =>
          rw [hr] at hc
          rcases List.mem_cons.mp hc with rfl | hmem
          · intro x hx
            rcases List.mem_cons.mp hx with rfl | hx2
            · exact hcc
            · exact ih e (hr ▸ List.mem_cons_self e es) x hx2
          · exact ih chunk (hr ▸ List.mem_cons_of_mem e hmem)

theorem parse_link_shape (parent ws t rest : List Char)
    (hws : ∀ c ∈ ws, is_whitespace c = true)
    (ht : ∀ c ∈ t, is_alphanumeric c = true) :
    parse_link parent (ws ++ '{' :: (t ++ '}' :: rest)) =
      some ⟨⟨String.mk parent⟩, ⟨String.mk t⟩,
        .PlainText (String.mk (rustTrim rest)), .None⟩ := by
  have h1 : (ws ++ '{' :: (t ++ '}' :: rest)).dropWhile is_whitespace =
      '{' :: (t ++ '}' :: rest) := by
    rw [List.dropWhile_append]
    have hws2 : ws.dropWhile is_whitespace = [] :=
      List.dropWhile_eq_nil_iff.mpr fun c hc => by simp [hws c hc]
    rw [hws2]
    simp [List.dropWhile_cons, is_whitespace]
  have h2 : (t ++ '}' :: rest).takeWhile is_alphanumeric = t := by
    rw [List.takeWhile_append]
    have ht2 : t.takeWhile is_alphanumeric = t :=
      List.takeWhile_eq_self_iff.mpr fun c hc => by simp [ht c hc]
    rw [ht2, if_pos rfl]
    simp [List.takeWhile_cons, is_alphanumeric]
  have h3 : (t ++ '}' :: rest).dropWhile is_alphanumeric = '}' :: rest := by
    rw [List.dropWhile_append]
    have ht3 : t.dropWhile is_alphanumeric = [] :=
      List.dropWhile_eq_nil_iff.mpr fun c hc => by simp [ht c hc]
    rw [ht3]
    simp [List.dropWhile_cons, is_alphanumeric]
  unfold parse_link
  rw [h1]
  simp only [h3, h2]

/-! ### Lexicographic order lemmas for the writer's node ordering -/

theorem strLeB_total : ∀ as bs : List Char,
    strLeB as bs = true ∨ strLeB bs as = true := by
  intro as
  induction as with
  | nil => exact fun bs => Or.inl rfl
  | cons a as ih =>
    intro bs
    cases bs with
    | nil => exact Or.inr rfl
    | cons b bs =>
      unfold strLeB
      rcases lt_trichotomy a b with h | h | h
      · left; simp [h]
      · subst h
        simp only [lt_irrefl, if_false]
        exact ih bs
      · right; simp [h]

theorem strLeB_trans : ∀ as bs cs : List Char,
    strLeB as bs = true → strLeB bs cs = true → strLeB as cs = true := by
  intro as
  induction as with
  | nil => intro bs cs _ _; rfl
  | cons a as ih =>
    intro bs cs h1 h2
    cases bs with
    | nil => exact absurd h1 (by simp [strLeB])
    | cons b bs =>
      cases cs with
      | nil => exact absurd h2 (by simp [strLeB])
      | cons c cs =>
        unfold strLeB at h1 h2 ⊢
        rcases lt_trichotomy a b with hab | hab | hab
        · rcases lt_trichotomy b c with hbc | hbc | hbc
          · simp [lt_trans hab hbc]
          · subst hbc; simp [hab]
          · rw [if_neg (asymm hbc), if_pos hbc] at h2
            exact absurd h2 (by simp)
        · subst hab
          rcases lt_trichotomy a c with hbc | hbc | hbc
          · simp [hbc]
          · subst hbc
            simp only [lt_irrefl, if_false] at h1 h2 ⊢
            exact ih _ _ h1 h2
          · rw [if_neg (asymm hbc), if_pos hbc] at h2
            exact absurd h2 (by simp)
        · rw [if_neg (asymm hab), if_pos hab] at h1
          exact absurd h1 (by simp)

theorem strLeB_antisymm : ∀ as bs : List Char,
    strLeB as bs = true → strLeB bs as = true → as = bs := by
  intro as
  induction as with
  | nil =>
    intro bs h1 h2
    cases bs with
    | nil => rfl
    | cons b bs => exact absurd h2 (by simp [strLeB])
  | cons a as ih =>
    intro bs h1 h2
    cases bs with
    | nil => exact absurd h1 (by simp [strLeB])
    | cons b bs =>
      unfold strLeB at h1 h2
      rcases lt_trichotomy a b with hab | hab | hab
      · rw [if_neg (asymm hab), if_pos hab] at h2
        exact absurd h2 (by simp)
      · subst hab
        simp only [lt_irrefl, if_false] at h1 h2
        rw [ih bs h1 h2]
      · rw [if_neg (asymm hab), if_pos hab] at h1
        exact absurd h1 (by simp)

instance : IsTotal DialogNodeId idLe :=
  ⟨fun a b => strLeB_total a.id.data b.id.data⟩

instance : IsTrans DialogNodeId idLe :=
  ⟨fun a b c h1 h2 => strLeB_trans a.id.data b.id.data c.id.data h1 h2⟩

instance : IsAntisymm DialogNodeId idLe :=
  ⟨fun a b h1 h2 => by
    cases a with
    | mk sa =>
      cases b with
      | mk sb =>
        have h3 : sa.data = sb.data :=
          strLeB_antisymm sa.data sb.data h1 h2
        rw [String.ext h3]⟩

theorem lookupAL_insertAL_self (m : List (DialogNodeId × DialogNode))
    (k : DialogNodeId) (v : DialogNode) :
    lookupAL (insertAL m k v) k = some v := by
  induction m with
  | nil => simp [insertAL, lookupAL]
  | cons p rest ih =>
    rcases p with ⟨k', v'⟩
    by_cases h : k' = k
    · simp [insertAL, lookupAL, h]
    · simp [insertAL, lookupAL, h, ih]

theorem insertAL_mem_values {m : List (DialogNodeId × DialogNode)}
    {k : DialogNodeId} {v : DialogNode} {kv : DialogNodeId × DialogNode}
    (h : kv ∈ insertAL m k v) : kv.2 = v ∨ kv ∈ m := by
  induction m with
  | nil =>
    unfold insertAL at h
    rcases List.mem_singleton.mp h with rfl
    exact Or.inl rfl
  | cons p rest ih =>
    rcases p with ⟨k', v'⟩
    unfold insertAL at h
    split at h
    · rcases List.mem_cons.mp h with rfl | hmem
      · exact Or.inl rfl
      · exact Or.inr (List.mem_cons_of_mem _ hmem)
    · rcases List.mem_cons.mp h with rfl | hmem
      · exact Or.inr (List.mem_cons_self _ _)
      · rcases ih hmem with hv | hm
        · exact Or.inl hv
        · exact Or.inr (List.mem_cons_of_mem _ hm)

theorem foldl_add_node_mem {nodes : List DialogNode} :
    ∀ (b0 : DialogBuilder) (kv : DialogNodeId × DialogNode),
      kv ∈ (nodes.foldl (fun b n => b.add_node n) b0).nodes →
      (∃ n ∈ nodes, kv.2 = n) ∨ kv ∈ b0.nodes := by
  induction nodes with
  | nil => exact fun b0 kv h => Or.inr h
  | cons n ns ih =>
    intro b0 kv h
    rcases ih (b0.add_node n) kv h with h1 | h2
    · rcases h1 with ⟨n', hn', he⟩
      exact Or.inl ⟨n', List.mem_cons_of_mem _ hn', he⟩
    · rcases insertAL_mem_values h2 with he | hm
      · exact Or.inl ⟨n, List.mem_cons_self _ _, he⟩
      · exact Or.inr hm

/-! ### Claim theorems for the executor -/

/-- C3: for every executor state and every index with no corresponding link
on the current node, selecting that index through the public path
(`choices().get(index)`) reports "no such choice" (`none`, the bounds check
of engine/mod.rs lines 118–123) rather than panicking, and no transition is
produced: the mutating `choose` is never invoked, so the traversal state
(current node and history) is unchanged. -/
theorem c3_out_of_range_choice (e : DialogExecutor) (n : DialogNode)
    (h : e.current_node = some n) (i : Nat) (hi : n.links.length ≤ i) :
    e.choicesGet i = none ∧ e.chooseAt i = none := by
  have hnone : n.links[i]? = none := List.getElem?_eq_none hi
  constructor
  · simp [DialogExecutor.choicesGet, h, hnone]
  · simp [DialogExecutor.chooseAt, DialogExecutor.choicesGet, h, hnone]

/-- Witness for C3: index 5 on the start node of the cyclic dialog (which has
two links). -/
theorem c3_witness :
    execStart.current_node = some startN ∧ startN.links.length ≤ 5 ∧
    (execStart.choicesGet 5 = none ∧ execStart.chooseAt 5 = none) :=
  ⟨by decide, by decide,
    c3_out_of_range_choice execStart startN (by decide) 5 (by decide)⟩

/-- C4: a link at index `i` with condition `OnlyIfNotYetChosen` on the
current node `n` is yielded by `choices().all()` iff the pair `(n.id, i)`
appears nowhere in the session history; and once it is chosen from `n`,
every later state of the session that is positioned at `n` again excludes
it from `choices().all()`. -/
theorem c4_only_if_not_yet_chosen (e : DialogExecutor) (n : DialogNode)
    (l : DialogLink) (i : Nat) (h : e.current_node = some n)
    (hl : n.links[i]? = some l)
    (hc : l.condition = DialogLinkCondition.OnlyIfNotYetChosen) :
    (∀ L, e.choicesAll = some L → ((∃ t, (i, t) ∈ L) ↔ (n.id, i) ∉ e.path)) ∧
    (∀ e', e.chooseAt i = some e' → ∀ e'', Reaches e' e'' →
      e''.current_node = some n → ∀ L, e''.choicesAll = some L →
      ∀ t, (i, t) ∉ L) := by
  refine ⟨fun L hL => gated_mem_iff h hl hc hL, ?_⟩
  intro e' he' e'' hre h'' L hL t ht
  have hmem' : (n.id, i) ∈ e'.path := by
    rcases chooseAt_some_iff.mp he' with ⟨n1, l1, h1, _, rfl⟩
    have hn1 : n1 = n := by
      rw [h] at h1
      exact (Option.some.injEq .. ▸ h1).symm
    subst hn1
    simp
  exact (gated_mem_iff h'' hl hc hL).mp ⟨t, ht⟩ (hre.mem_path hmem')

/-- Witness for C4: the gated link Start→Branch at index 1, in a fresh
session at Start (empty history), is offered, matching the iff. -/
theorem c4_witness :
    (∃ t, (1, t) ∈ [(0, DialogText.PlainText "Hi and bye!"),
        (1, DialogText.PlainText "Hi!")]) ↔
      (startN.id, 1) ∉ execStart.path :=
  (c4_only_if_not_yet_chosen execStart startN startLink1 1 (by decide)
    (by decide) (by decide)).1
    [(0, DialogText.PlainText "Hi and bye!"), (1, DialogText.PlainText "Hi!")]
    (by decide)

/-- C5: choosing an in-range index `i` on the current node `n` moves the
session to `links[i].to` and appends exactly the pair `(n.id, i)` to the
history, removing nothing: the new history is the old one with the single
entry appended. -/
theorem c5_choose_advances (e : DialogExecutor) (n : DialogNode)
    (l : DialogLink) (i : Nat) (h : e.current_node = some n)
    (hl : n.links[i]? = some l) :
    e.chooseAt i = some ⟨e.dialog, l.toId, e.path ++ [(n.id, i)]⟩ :=
  chooseAt_some_iff.mpr ⟨n, l, h, hl, rfl⟩

/-- Witness for C5: choosing index 1 at Start of the cyclic dialog. -/
theorem c5_witness :
    execStart.chooseAt 1 =
      some ⟨execStart.dialog, startLink1.toId, execStart.path ++ [(startN.id, 1)]⟩ :=
  c5_choose_advances execStart startN startLink1 1 (by decide) (by decide)

/-- C6: when every link of the current node has condition `None`,
`choices().all()` yields every link, in definition order, under its original
index, whatever the history is. -/
theorem c6_all_unconditional (e : DialogExecutor) (n : DialogNode)
    (h : e.current_node = some n)
    (hall : ∀ l ∈ n.links, l.condition = DialogLinkCondition.None) :
    e.choicesAll = some (n.links.enum.map fun p => (p.1, p.2.text)) := by
  rw [choicesAll_eq_of_current h]
  congr 1
  rw [List.filter_eq_self.mpr]
  intro p hp
  have hmem : p.2 ∈ n.links := by
    have := List.mem_map_of_mem Prod.snd hp
    rwa [List.enum_map_snd] at this
  unfold linkAvailable
  rw [hall p.2 hmem]
  simp

/-- Witness for C6: the Branch node (both links unconditional) with a
non-empty history mentioning Branch itself. -/
theorem c6_witness :
    (⟨cycDialog, ⟨"Branch"⟩, [(⟨"Branch"⟩, 0), (⟨"Branch"⟩, 1)]⟩ :
        DialogExecutor).choicesAll =
      some (branchN.links.enum.map fun p => (p.1, p.2.text)) :=
  c6_all_unconditional ⟨cycDialog, ⟨"Branch"⟩, [(⟨"Branch"⟩, 0), (⟨"Branch"⟩, 1)]⟩
    branchN (by decide) (by decide)

/-- C10: `choices().get(i)` succeeds for every in-range index regardless of
the link's condition and of the history, and choosing it advances the
session; so a gated (`OnlyIfNotYetChosen`) link already in the history —
which `choices().all()` excludes — can still be selected and traversed. -/
theorem c10_get_bypasses_gating (e : DialogExecutor) (n : DialogNode)
    (l : DialogLink) (i : Nat) (h : e.current_node = some n)
    (hl : n.links[i]? = some l) :
    e.choicesGet i = some (l, i) ∧
    e.chooseAt i = some ⟨e.dialog, l.toId, e.path ++ [(n.id, i)]⟩ ∧
    (l.condition = DialogLinkCondition.OnlyIfNotYetChosen →
      (n.id, i) ∈ e.path → ∀ L, e.choicesAll = some L → ∀ t, (i, t) ∉ L) := by
  refine ⟨by simp [DialogExecutor.choicesGet, h, hl],
    chooseAt_some_iff.mpr ⟨n, l, h, hl, rfl⟩, ?_⟩
  intro hc hp L hL t ht
  exact (gated_mem_iff h hl hc hL).mp ⟨t, ht⟩ hp

/-- Witness for C10: back at Start with (Start, 1) already in history, the
gated link at index 1 is absent from `all()` yet `get(1)` still returns it
and choosing it advances. -/
theorem c10_witness :
    execLoop.choicesGet 1 = some (startLink1, 1) ∧
    execLoop.chooseAt 1 =
      some ⟨execLoop.dialog, startLink1.toId, execLoop.path ++ [(startN.id, 1)]⟩ ∧
    (1, startLink1.text) ∉ [(0, DialogText.PlainText "Hi and bye!")] :=
  have h10 := c10_get_bypasses_gating execLoop startN startLink1 1
    (by decide) (by decide)
  ⟨h10.1, h10.2.1,
    h10.2.2 (by decide) (by decide) [(0, DialogText.PlainText "Hi and bye!")]
      (by decide) startLink1.text⟩

/-! ### Claim theorems for builder, parser and writer -/

/-- C1 (code bug): the claim — and the repository's own parser test
`error_in_links` — require `build()` to fail with
`InvalidLink{ missing_target: Some("En") }` on the `error_in_links` input,
but `build()` in src/engine/mod.rs lines 19–24 performs no validation at
all: `DialogError` has no variants, `build` returns `Ok` for every builder,
and parsing the test input therefore succeeds. -/
theorem c1_build_performs_no_validation :
    (parse c1_input).isSome = true ∧
      ∀ b : DialogBuilder, (b.build).isOk = true := by
  constructor
  · decide
  · intro b
    rfl

/-- C2: whenever re-parsing the output of `serialize_dialog` yields a
dialogue, every link of every node of that dialogue has condition `None` —
in particular for originals containing `OnlyIfNotYetChosen` links, since
the writer encodes no condition and `parse_link` hard-codes `None`. -/
theorem c2_reparse_conditions_none (d : Dialog) (s : String) (d' : Dialog)
    (hs : serialize_dialog d = some s) (hp : parse s = some d') :
    ∀ kv ∈ d'.nodes, ∀ l ∈ kv.2.links,
      l.condition = DialogLinkCondition.None := by
  clear hs
  unfold parse at hp
  split at hp
  · exact Option.noConfusion hp
  · rename_i i1 node0 hpn
    split at hp
    · exact Option.noConfusion hp
    · rename_i rem nodes0 hmn
      simp only [DialogBuilder.build] at hp
      injection hp with hp2
      intro kv hkv l hl
      have hkv2 : kv ∈ (nodes0.foldl (fun b n => b.add_node n)
          (DialogBuilder.new node0)).nodes := by
        rw [← hp2] at hkv
        exact hkv
      rcases foldl_add_node_mem _ kv hkv2 with ⟨n', hn', he⟩ | hin
      · exact many0_nodes_conditions _ _ _ _ hmn n' hn' l (he ▸ hl)
      · have : kv.2 = node0 := by
          rcases List.mem_singleton.mp hin with rfl
          rfl
        exact parse_node_conditions hpn l (this ▸ hl)

/-- Witness for C2: serializing the gated two-node dialogue and re-parsing
it gives `c2_reparsed`, whose single link has condition `None`. -/
theorem c2_witness :
    serialize_dialog c2_dialog = some c2_serialized ∧
    parse c2_serialized = some c2_reparsed ∧
    (⟨⟨"Start"⟩, ⟨"End"⟩, .PlainText "Hi", .None⟩ : DialogLink).condition =
      DialogLinkCondition.None :=
  ⟨by decide, by decide,
    c2_reparse_conditions_none c2_dialog c2_serialized c2_reparsed
      (by decide) (by decide)
      (⟨"Start"⟩, ⟨⟨"Start"⟩, .PlainText "Hello",
        [⟨⟨"Start"⟩, ⟨"End"⟩, .PlainText "Hi", .None⟩]⟩)
      (by decide)
      ⟨⟨"Start"⟩, ⟨"End"⟩, .PlainText "Hi", .None⟩ (by decide)⟩

/-- C7: `serialize_dialog` is determined by the dialogue's start id and the
*content* of the node mapping — two dialogues with the same start, the same
key multiset and the same key-to-node lookup serialize to identical text
regardless of the mapping's incidental entry order — and the emitted text
begins with the start node's block. -/
theorem c7_writer_deterministic (d₁ d₂ : Dialog)
    (hst : d₁.start_node = d₂.start_node)
    (hkeys : (d₁.nodes.map Prod.fst).Perm (d₂.nodes.map Prod.fst))
    (hlook : ∀ k, lookupAL d₁.nodes k = lookupAL d₂.nodes k) :
    serialize_dialog d₁ = serialize_dialog d₂ ∧
    ∀ s start, serialize_dialog d₁ = some s → d₁.start_nodeVal = some start →
      ∃ rest, s = serialize_node start ++ rest := by
  have hsort : (d₁.nodes.map Prod.fst).insertionSort idLe =
      (d₂.nodes.map Prod.fst).insertionSort idLe := by
    exact @List.eq_of_perm_of_sorted _ idLe _ _ _
      (((List.perm_insertionSort idLe _).trans hkeys).trans
        (List.perm_insertionSort idLe _).symm)
      (List.sorted_insertionSort idLe _)
      (List.sorted_insertionSort idLe _)
  have hall : d₁.all_nodes = d₂.all_nodes := by
    unfold Dialog.all_nodes
    rw [hsort]
    exact List.filterMap_congr fun k _ => hlook k
  constructor
  · unfold serialize_dialog
    rw [hall, hst, hlook d₂.start_node]
  · intro s start hs hstart
    unfold serialize_dialog at hs
    unfold Dialog.start_nodeVal at hstart
    rw [hstart] at hs
    rw [Option.map_eq_some'] at hs
    rcases hs with ⟨a, ha, hsa⟩
    injection ha with ha2
    subst ha2
    exact ⟨_, hsa.symm⟩

/-- Witness for C7: the same two-node content stored in the two possible
list orders serializes to the same text. -/
theorem c7_witness :
    serialize_dialog c2_dialog = serialize_dialog c7_d2 :=
  (c7_writer_deterministic c2_dialog c7_d2 (by decide) (by decide)
    (by
      intro k
      by_cases h1 : (⟨"Start"⟩ : DialogNodeId) = k
      · subst h1; decide
      · by_cases h2 : (⟨"End"⟩ : DialogNodeId) = k
        · subst h2; decide
        · simp [c2_dialog, c7_d2, lookupAL, h1, h2])).1

/-- C8 counterexample: `add_link` on a link whose `from` node "Other" was
never added does not report an error and does not defer to build-time
validation — the `unwrap` in engine/mod.rs line 32 panics, i.e. the model
returns `none`, refuting "it never crashes the program". -/
theorem c8_counterexample : c8_builder.add_link c8_link = none := by
  decide

/-- C8 amended: `add_link` appends the link to the `from` node's link list
when that node exists (and the link is then found on that node); when the
`from` node is absent it panics (the `unwrap` fails) — it neither reports
an error value nor defers the problem to `build()`. -/
theorem c8_add_link_behaviour (b : DialogBuilder) (l : DialogLink) :
    (b.add_link l = none ↔ lookupAL b.nodes l.fromId = none) ∧
    (∀ n, lookupAL b.nodes l.fromId = some n →
      b.add_link l =
        some ⟨b.start_node, insertAL b.nodes l.fromId (n.add_link l)⟩ ∧
      ∀ b', b.add_link l = some b' →
        lookupAL b'.nodes l.fromId = some (n.add_link l)) := by
  unfold DialogBuilder.add_link
  cases hx : lookupAL b.nodes l.fromId with
  | none =>
    refine ⟨by simp, ?_⟩
    intro n hn
    exact Option.noConfusion hn
  | some n0 =>
    refine ⟨by simp, ?_⟩
    intro n hn
    injection hn with hn2
    subst hn2
    refine ⟨rfl, ?_⟩
    intro b' hb'
    injection hb' with hb2
    rw [← hb2]
    exact lookupAL_insertAL_self _ _ _

/-- Witness for C8: adding a link whose `from` node "Start" exists appends
it to that node. -/
theorem c8_witness :
    c8_builder.add_link c8_link2 =
      some ⟨c8_builder.start_node,
        insertAL c8_builder.nodes c8_link2.fromId
          ((DialogNode.new "Start" "Hello, World!").add_link c8_link2)⟩ :=
  ((c8_add_link_behaviour c8_builder c8_link2).2
    (DialogNode.new "Start" "Hello, World!") (by decide)).1

/-- C9 counterexample: in `{End} a=b` the `=` is not part of a node
terminator, yet the choice chunker stops at it (parser/mod.rs line 56 stops
at any `=`), so the text "a=b" is not preserved — the required terminator
is then missing and the whole parse fails. -/
theorem c9_counterexample : parse c9_input = none := by
  decide

/-- C9 amended: a choice entry extends up to the next `|` **or `=`**
character (whichever comes first — the chunk is exactly the maximal prefix
free of both, and every parsed entry is free of both), and the choice text
of an entry `{target} text` is the remainder after the braced target,
trimmed of surrounding whitespace; it is preserved in full only when it
contains neither `|` nor `=`. -/
theorem c9_choice_text_upto_pipe_or_eq :
    (∀ cs : List Char,
      (splitChoices cs).2.head? = some (cs.takeWhile choice_char) ∧
      ∀ chunk ∈ (splitChoices cs).2, ∀ c ∈ chunk, choice_char c = true) ∧
    (∀ parent ws t rest : List Char,
      (∀ c ∈ ws, is_whitespace c = true) →
      (∀ c ∈ t, is_alphanumeric c = true) →
      parse_link parent (ws ++ '{' :: (t ++ '}' :: rest)) =
        some ⟨⟨String.mk parent⟩, ⟨String.mk t⟩,
          .PlainText (String.mk (rustTrim rest)), .None⟩) :=
  ⟨fun cs => ⟨splitChoices_head cs, splitChoices_all_chunks cs⟩,
    parse_link_shape⟩

/-- Witness for C9: the chunk of `"{End} a=b | x"` stops at the `=`, and a
well-formed entry `" {End} Hi! "` parses to the trimmed text `"Hi!"`. -/
theorem c9_witness :
    (splitChoices "{End} a=b | x".data).2.head? =
      some ("{End} a=b | x".data.takeWhile choice_char) ∧
    parse_link "Start".data
        (" ".data ++ '{' :: ("End".data ++ '}' :: " Hi! ".data)) =
      some ⟨⟨String.mk "Start".data⟩, ⟨String.mk "End".data⟩,
        .PlainText (String.mk (rustTrim " Hi! ".data)), .None⟩ :=
  ⟨(c9_choice_text_upto_pipe_or_eq.1 "{End} a=b | x".data).1,
    c9_choice_text_upto_pipe_or_eq.2 "Start".data " ".data "End".data
      " Hi! ".data (by decide) (by decide)⟩

end Socrates
